import Mathlib

/-!
Verification of the peer-roster reconciliation and audio-activity presence
logic of src/src/widget/form/groupchatform.cpp (qTox, GroupChatForm).

The embedding models QString as Lean String (a list of characters; QString
comparison is lexicographic, and for the characters appearing here the
UTF-16 code-unit order coincides with code-point order), QMap as an
association list kept in key order (QMap iterates its keys in sorted order,
so the roster list below stands for the key-ordered entry sequence of
group->getPeerList(), whose keys are unique), and QTimer as an optional
pending deadline in milliseconds.
-/

/-- Lexicographic strict comparison on character lists: the order used by
QString::operator< (code-unit comparison; identical to code-point order on
the BMP characters involved here). -/
def lexLt : List Char → List Char → Bool
  | [], [] => false
  | [], _ :: _ => true
  | _ :: _, [] => false
  | a :: as, b :: bs =>
    if a < b then true
    else if b < a then false
    else lexLt as bs

/-- QString strict comparison. -/
def qstrLt (a b : String) : Bool := lexLt a.data b.data

/-- The weak order associated with qstrLt (a is not greater than b). -/
def qstrLe (a b : String) : Bool := !(qstrLt b a)

/-- QString::toLower, modelled character-wise (the claims only exercise
characters whose lowercasing is the ASCII one or the identity). -/
def qtoLower (s : String) : String := ⟨s.data.map Char.toLower⟩

/-- The character class of the regular expression [\n\r] used at line 55. -/
def isNewline (c : Char) : Bool := c = '\n' || c = '\r'

/-- editName (groupchatform.cpp lines 53-65): indexOf the first newline or
carriage return; if none, the name is returned unchanged; otherwise chop
keeps the prefix before that position and a single ellipsis character
U+2026 is appended. -/
def editName (name : String) : String :=
  match name.data.findIdx? isNewline with
  | none => name
  | some pos => ⟨name.data.take pos ++ ['…']⟩

/-- Peer identity: ToxPk, an opaque comparable identifier whose toString is
the identity string looked up in the blacklist. -/
abbrev ToxPk := String

/-- The three mutually exclusive stylings a roster label can receive in
updateUserNames (lines 248-254). -/
inductive StyleTag
  | self
  | blacklisted
  | normal
deriving DecidableEq, Repr

/-- One rendered roster label, as built by the loop of updateUserNames:
the rendered text (edited name plus the ", " separator), the full
untruncated name, the tooltip set when the rendered text differs from the
full name, and the style classification. -/
structure DisplayEntry where
  pk : ToxPk
  fullName : String
  text : String
  tooltip : Option String
  tag : StyleTag
deriving DecidableEq, Repr

/-- One iteration of the label-building loop of updateUserNames
(lines 237-255): editedName = editName(fullName) + ", ", tooltip when the
edited text differs from the full name, and the style priority chain
self, then blacklist membership of the identity string, then normal
(the normal branch only feeds the net-cam view, a presentation concern). -/
def mkEntry (selfPk : ToxPk) (blacklist : List String) (p : ToxPk × String) : DisplayEntry :=
  let fullName := p.2
  let editedName := editName fullName ++ ", "
  { pk := p.1
    fullName := fullName
    text := editedName
    tooltip := if editedName ≠ fullName then some fullName else none
    tag :=
      if p.1 = selfPk then StyleTag.self
      else if p.1 ∈ blacklist then StyleTag.blacklisted
      else StyleTag.normal }

/-- The qSort comparator of lines 265-268:
a->text().toLower() < b->text().toLower(). -/
def labelLt (a b : DisplayEntry) : Bool := qstrLt (qtoLower a.text) (qtoLower b.text)

/-- The weak order associated with the comparator (a does not compare
after b), used to drive the sort. -/
def labelLe (a b : DisplayEntry) : Bool := !(labelLt b a)

/-- The pure roster-to-ordered-labels portion of updateUserNames
(lines 226-268): early return on an empty roster, one label per roster
entry, then the sort by the comparator of lines 265-268. The roster list
stands for the key-ordered entries of the QMap returned by getPeerList
(unique keys), which is also the order peerLabels.values() yields. -/
def reconcile (peers : List (ToxPk × String)) (selfPk : ToxPk)
    (blacklist : List String) : List DisplayEntry :=
  if peers.isEmpty then []
  else (peers.map (mkEntry selfPk blacklist)).mergeSort labelLe

/-- labelText.chop(2): drop the final two characters. -/
def chop2 (s : String) : String := ⟨s.data.take (s.data.length - 2)⟩

/-- Lines 270-274: strip the trailing ", " separator from the last sorted
label. -/
def chopLastText : List DisplayEntry → List DisplayEntry
  | [] => []
  | [e] => [{ e with text := chop2 e.text }]
  | e :: rest => e :: chopLastText rest

/-- The full rendered output of updateUserNames (lines 216-278): the
empty-roster early return at lines 229-231 precedes the last-label
separator strip of lines 270-274. -/
def updateUserNames (peers : List (ToxPk × String)) (selfPk : ToxPk)
    (blacklist : List String) : List DisplayEntry :=
  if peers.isEmpty then []
  else chopLastText (reconcile peers selfPk blacklist)

/-- The stylesheet literal applied to a speaking peer at line 282. -/
def redStyle : String := "QLabel \x7bcolor : red;\x7d"

/-- The stylesheet literal applied to the local user's label at line 249. -/
def greenStyle : String := "QLabel \x7bcolor : green;\x7d"

/-- The stylesheet literal applied to blacklisted peers at line 251. -/
def darkRedStyle : String := "QLabel \x7bcolor : darkRed;\x7d"

/-- The empty stylesheet set by the timer callback at line 292. -/
def noStyle : String := ""

/-- The quiet period: peerAudioTimers[peerPk]->start(500) at line 303. -/
def quietPeriod : Nat := 500

/-- Replace the value at a key of an association list, or append the entry:
QMap::insert / assignment through operator[]. -/
def insertA {β : Type} (m : List (ToxPk × β)) (k : ToxPk) (v : β) : List (ToxPk × β) :=
  match m with
  | [] => [(k, v)]
  | (k', v') :: rest => if k' = k then (k, v) :: rest else (k', v') :: insertA rest k v

/-- The per-peer widget state the audio-activity code acts on:
peerLabels maps each roster peer to its label's current stylesheet, and
peerAudioTimers maps peers to their QTimer slot, holding some deadline
while a single-shot timer is pending and none when the stored pointer is
null (the state after the callback ran, line 294). -/
structure AudioState where
  peerLabels : List (ToxPk × String)
  peerAudioTimers : List (ToxPk × Option Nat)
deriving DecidableEq, Repr

/-- The deadline of a pending timer for a peer, if any. -/
def pendingDeadline (st : AudioState) (pk : ToxPk) : Option Nat :=
  match List.lookup pk st.peerAudioTimers with
  | some (some d) => some d
  | _ => none

/-- GroupChatForm::peerAudioPlaying (lines 280-304). Line 282 runs
peerLabels[peerPk]->setStyleSheet on the stored label pointer: when the
peer has no label, QMap::operator[] default-constructs a null QLabel*
and the call dereferences it — modelled as none (a crash, not a state).
Otherwise the timer-creation branch of lines 284-302 runs exactly when
the timer slot is absent or null, and line 303 (re)starts the single
timer with deadline now + quietPeriod. The returned flag records whether
the creation branch (with its net-cam re-add) was taken. -/
def peerAudioPlaying (pk : ToxPk) (now : Nat) (st : AudioState) :
    Option (AudioState × Bool) :=
  match List.lookup pk st.peerLabels with
  | none => none
  | some _ =>
    let created :=
      match List.lookup pk st.peerAudioTimers with
      | none => true
      | some none => true
      | some (some _) => false
    some ({ peerLabels := insertA st.peerLabels pk redStyle,
            peerAudioTimers := insertA st.peerAudioTimers pk (some (now + quietPeriod)) },
          created)

/-- The QTimer::timeout lambda of lines 287-295, run when a pending timer
expires: net-cam removal (presentation), then
peerLabels[peerPk]->setStyleSheet("") — a null-pointer dereference when
the peer is no longer in peerLabels, modelled as none — then the timer is
deleted and its slot nulled. -/
def timerFired (pk : ToxPk) (st : AudioState) : Option AudioState :=
  match List.lookup pk st.peerLabels with
  | none => none
  | some _ =>
    some { peerLabels := insertA st.peerLabels pk noStyle,
           peerAudioTimers := insertA st.peerAudioTimers pk none }

/-- The stylesheet updateUserNames gives a freshly built label
(lines 248-254). -/
def labelStyle (selfPk : ToxPk) (blacklist : List String) (pk : ToxPk) : String :=
  if pk = selfPk then greenStyle
  else if pk ∈ blacklist then darkRedStyle
  else noStyle

/-- The effect of GroupChatForm::updateUserNames (lines 216-278) on the
per-peer state: peerLabels is cleared (line 225) and rebuilt from the
current roster; peerAudioTimers is not touched anywhere in the function,
so pending timers of removed peers survive. -/
def updateUserNamesState (peers : List (ToxPk × String)) (selfPk : ToxPk)
    (blacklist : List String) (st : AudioState) : AudioState :=
  if peers.isEmpty then { st with peerLabels := [] }
  else { st with peerLabels := peers.map (fun p => (p.1, labelStyle selfPk blacklist p.1)) }

/-- Fire the peer's single-shot timer if its deadline is not after time t:
the event loop delivers the timeout before any later activity event. Log
entries are (time, true) for the timer-creation (entered speaking) branch
and (time, false) for an expiry (went idle). -/
def fireIfDue (pk : ToxPk) (t : Nat) (st : AudioState) :
    Option (AudioState × List (Nat × Bool)) :=
  match pendingDeadline st pk with
  | some d =>
    if d ≤ t then (timerFired pk st).map (fun st' => (st', [(d, false)]))
    else some (st, [])
  | none => some (st, [])

/-- Run a sequence of audio-activity events for one peer at the given
(increasing) times, interleaving timer expiries as the event loop would,
and flush the final pending expiry. Returns the final state and the log
of entered-speaking / went-idle transitions, or none if any step crashed. -/
def runEvents (pk : ToxPk) (acts : List Nat) (st : AudioState) :
    Option (AudioState × List (Nat × Bool)) :=
  match acts with
  | [] =>
    match pendingDeadline st pk with
    | some d => (timerFired pk st).map (fun st' => (st', [(d, false)]))
    | none => some (st, [])
  | t :: rest =>
    match fireIfDue pk t st with
    | none => none
    | some (st1, log1) =>
      match peerAudioPlaying pk t st1 with
      | none => none
      | some (st2, created) =>
        match runEvents pk rest st2 with
        | none => none
        | some (st3, log3) =>
          some (st3, log1 ++ (if created then [(t, true)] else []) ++ log3)

/-- The widget state updateUserNames mutates: the flow layout of name
labels and the peerLabels map. -/
structure NameListState where
  namesListLayout : List DisplayEntry
  peerLabelEntries : List (ToxPk × DisplayEntry)
deriving DecidableEq, Repr

/-- updateUserNames as a transformer of the widget state: lines 218-225
first clear the layout and the peerLabels map, so the rebuilt contents
depend only on the roster, the local identity and the blacklist, never on
the previous widget contents. -/
def updateUserNamesOp (peers : List (ToxPk × String)) (selfPk : ToxPk)
    (blacklist : List String) (st : NameListState) : NameListState :=
  let cleared : NameListState := { st with namesListLayout := [], peerLabelEntries := [] }
  if peers.isEmpty then cleared
  else { cleared with
         namesListLayout := updateUserNames peers selfPk blacklist,
         peerLabelEntries := peers.map (fun p => (p.1, mkEntry selfPk blacklist p)) }

/-! Order-theoretic facts about the QString comparison. -/

theorem lexLt_irrefl (a : List Char) : lexLt a a = false := by
  induction a with
  | nil => rfl
  | cons x xs ih => simp [lexLt, ih]

theorem lexLt_trans : ∀ (a b c : List Char),
    lexLt a b = true → lexLt b c = true → lexLt a c = true := by
  intro a
  induction a with
  | nil =>
    intro b c hab hbc
    cases b with
    | nil => simp [lexLt] at hab
    | cons y ys =>
      cases c with
      | nil => simp [lexLt] at hbc
      | cons z zs => simp [lexLt]
  | cons x xs ih =>
    intro b c hab hbc
    cases b with
    | nil => simp [lexLt] at hab
    | cons y ys =>
      cases c with
      | nil => simp [lexLt] at hbc
      | cons z zs =>
        simp only [lexLt] at hab hbc ⊢
        rcases lt_trichotomy x y with hxy | hxy | hxy
        · rcases lt_trichotomy y z with hyz | hyz | hyz
          · simp [lt_trans hxy hyz]
          · subst hyz
            simp [hxy]
          · simp [not_lt.mpr (le_of_lt hyz), hyz] at hbc
        · subst hxy
          simp only [lt_irrefl, if_false] at hab
          rcases lt_trichotomy x z with hxz | hxz | hxz
          · simp [hxz]
          · subst hxz
            simp only [lt_irrefl, if_false] at hbc ⊢
            exact ih ys zs hab hbc
          · simp [not_lt.mpr (le_of_lt hxz), hxz] at hbc
        · simp [not_lt.mpr (le_of_lt hxy), hxy] at hab

theorem lexLt_eq_of_not_lt : ∀ (a b : List Char),
    lexLt a b = false → lexLt b a = false → a = b := by
  intro a
  induction a with
  | nil =>
    intro b hab _
    cases b with
    | nil => rfl
    | cons y ys => simp [lexLt] at hab
  | cons x xs ih =>
    intro b hab hba
    cases b with
    | nil => simp [lexLt] at hba
    | cons y ys =>
      simp only [lexLt] at hab hba
      rcases lt_trichotomy x y with h | h | h
      · simp [h] at hab
      · subst h
        simp only [lt_irrefl, if_false] at hab hba
        rw [ih ys hab hba]
      · simp [h, not_lt.mpr (le_of_lt h)] at hba

theorem qstrLe_total (a b : String) : (qstrLe a b || qstrLe b a) = true := by
  by_cases h1 : qstrLt b a = true
  · by_cases h2 : qstrLt a b = true
    · have h3 := lexLt_trans _ _ _ h1 h2
      rw [lexLt_irrefl] at h3
      cases h3
    · have h2' : qstrLt a b = false := by
        cases h : qstrLt a b with
        | false => rfl
        | true => exact absurd h h2
      simp [qstrLe, h2']
  · have h1' : qstrLt b a = false := by
      cases h : qstrLt b a with
      | false => rfl
      | true => exact absurd h h1
    simp [qstrLe, h1']

theorem qstrLe_trans (a b c : String) (hab : qstrLe a b = true) (hbc : qstrLe b c = true) :
    qstrLe a c = true := by
  simp only [qstrLe, qstrLt, Bool.not_eq_true'] at hab hbc ⊢
  cases hca : lexLt c.data a.data with
  | false => rfl
  | true =>
    cases hab2 : lexLt a.data b.data with
    | true =>
      have h := lexLt_trans _ _ _ hca hab2
      rw [hbc] at h
      cases h
    | false =>
      have hEq : a.data = b.data := lexLt_eq_of_not_lt _ _ hab2 hab
      rw [hEq] at hca
      rw [hbc] at hca
      cases hca

theorem labelLe_total (a b : DisplayEntry) : (labelLe a b || labelLe b a) = true :=
  qstrLe_total (qtoLower a.text) (qtoLower b.text)

theorem labelLe_trans (a b c : DisplayEntry) (hab : labelLe a b = true)
    (hbc : labelLe b c = true) : labelLe a c = true :=
  qstrLe_trans (qtoLower a.text) (qtoLower b.text) (qtoLower c.text) hab hbc

/-! Shared facts about the reconciliation pipeline. -/

theorem mergeSort_pair {α : Type} (le : α → α → Bool) (a b : α) :
    [a, b].mergeSort le = if le a b then [a, b] else [b, a] := by
  cases h : le a b <;> simp [List.mergeSort, List.splitInTwo, List.merge, h]

theorem reconcile_length (peers : List (ToxPk × String)) (selfPk : ToxPk)
    (bl : List String) : (reconcile peers selfPk bl).length = peers.length := by
  unfold reconcile
  split
  · next h => rw [List.isEmpty_iff.mp h]; rfl
  · next h =>
    calc ((peers.map (mkEntry selfPk bl)).mergeSort labelLe).length
        = (peers.map (mkEntry selfPk bl)).length :=
          (List.mergeSort_perm (peers.map (mkEntry selfPk bl)) labelLe).length_eq
      _ = peers.length := List.length_map _ _

theorem mkEntry_pk (selfPk : ToxPk) (bl : List String) (p : ToxPk × String) :
    (mkEntry selfPk bl p).pk = p.1 := rfl

theorem reconcile_map_pk_perm (peers : List (ToxPk × String)) (selfPk : ToxPk)
    (bl : List String) :
    ((reconcile peers selfPk bl).map DisplayEntry.pk).Perm (peers.map Prod.fst) := by
  unfold reconcile
  split
  · next h => rw [List.isEmpty_iff.mp h]; rfl
  · next h =>
    have h1 := (List.mergeSort_perm (peers.map (mkEntry selfPk bl)) labelLe).map DisplayEntry.pk
    have h2 : (peers.map (mkEntry selfPk bl)).map DisplayEntry.pk = peers.map Prod.fst := by
      rw [List.map_map]
      rfl
    rw [h2] at h1
    exact h1

theorem pendingDeadline_some_inv (st : AudioState) (pk : ToxPk) (d : Nat)
    (h : pendingDeadline st pk = some d) :
    List.lookup pk st.peerAudioTimers = some (some d) := by
  unfold pendingDeadline at h
  cases hl : List.lookup pk st.peerAudioTimers with
  | none => rw [hl] at h; exact absurd h (by simp)
  | some o =>
    cases o with
    | none => rw [hl] at h; exact absurd h (by simp)
    | some d2 =>
      rw [hl] at h
      simp only [Option.some.injEq] at h
      subst h
      rfl

theorem lookup_insertA {β : Type} (m : List (ToxPk × β)) (k : ToxPk) (v : β) :
    List.lookup k (insertA m k v) = some v := by
  induction m with
  | nil => simp [insertA, List.lookup]
  | cons hd tl ih =>
    obtain ⟨k2, v2⟩ := hd
    by_cases h : k2 = k
    · simp [insertA, h, List.lookup]
    · have hbeq : (k == k2) = false := beq_eq_false_iff_ne.mpr (Ne.symm h)
      simp [insertA, h, List.lookup, ih, hbeq]

/-! The claims. -/

/-- Claim C5: editName returns its input unchanged when it contains no
newline or carriage-return character; otherwise it returns the prefix
strictly before the first such character with a single ellipsis character
appended. -/
theorem editName_spec (name : String) :
    (name.data.findIdx? isNewline = none → editName name = name) ∧
    (∀ i, name.data.findIdx? isNewline = some i →
      editName name = ⟨name.data.take i ++ ['…']⟩) := by
  constructor
  · intro h
    unfold editName
    rw [h]
  · intro i h
    unfold editName
    rw [h]

/-- Claim C5 witness: the concrete instances named by the spec. -/
theorem editName_spec_witness :
    editName "Alice\nSmith" = "Alice…" ∧ editName "Bob" = "Bob" := by
  constructor
  · have h := (editName_spec "Alice\nSmith").2 5 (by decide)
    rw [h]
    decide
  · exact (editName_spec "Bob").1 (by decide)

/-- Claim C6: every roster peer is classified into exactly one style tag
with priority self over blacklisted over normal: the label built by the
updateUserNames loop is tagged self exactly when its identity equals the
local identity, blacklisted exactly when it differs and its identity
string is in the blacklist, and normal exactly otherwise. -/
theorem mkEntry_style_tag_classification (selfPk : ToxPk) (bl : List String)
    (p : ToxPk × String) :
    ((mkEntry selfPk bl p).tag = StyleTag.self ↔ p.1 = selfPk) ∧
    ((mkEntry selfPk bl p).tag = StyleTag.blacklisted ↔ p.1 ≠ selfPk ∧ p.1 ∈ bl) ∧
    ((mkEntry selfPk bl p).tag = StyleTag.normal ↔ p.1 ≠ selfPk ∧ p.1 ∉ bl) := by
  by_cases h1 : p.1 = selfPk
  · simp [mkEntry, h1]
  · by_cases h2 : p.1 ∈ bl
    · simp [mkEntry, h1, h2]
    · simp [mkEntry, h1, h2]

/-- Claim C3 (refuted by the code): a fired expiry callback, and likewise
an activity event, for a peer identity absent from peerLabels is not a
no-op: lines 292 and 282 run setStyleSheet through a default-constructed
null QLabel*, modelled as the crashing result none. Evaluated at the
failing input: only P1 has a label, the event names P9. -/
theorem unknown_peer_event_crashes :
    timerFired "P9" ⟨[("P1", noStyle)], []⟩ = none ∧
    peerAudioPlaying "P9" 0 ⟨[("P1", noStyle)], []⟩ = none ∧
    ¬ timerFired "P9" ⟨[("P1", noStyle)], []⟩ = some ⟨[("P1", noStyle)], []⟩ := by
  decide

/-- Claim C2 (refuted by the code): removing a peer mid-quiet-period does
not cancel its pending expiry timer. With P2 speaking since t=200ms
(deadline 700ms), rebuilding an empty roster at t=300ms leaves the
700ms deadline pending in peerAudioTimers — updateUserNames never touches
that map — and when it fires, the callback crashes on the removed peer's
absent label instead of having been cancelled. -/
theorem removal_leaves_timer_pending :
    peerAudioPlaying "P2" 200 ⟨[("P2", noStyle)], []⟩ =
      some (⟨[("P2", redStyle)], [("P2", some 700)]⟩, true) ∧
    pendingDeadline
      (updateUserNamesState [] "self" [] ⟨[("P2", redStyle)], [("P2", some 700)]⟩) "P2" =
      some 700 ∧
    timerFired "P2"
      (updateUserNamesState [] "self" [] ⟨[("P2", redStyle)], [("P2", some 700)]⟩) = none := by
  decide

/-- Claim C4: activity events for P2 at t=0, 200, 400ms with a 500ms quiet
period produce exactly one entered-speaking transition, at t=0, and one
went-idle transition, at t=900ms; in general, an activity event while a
timer is pending takes the restart path: the creation branch does not run
again and the peer's single deadline becomes now + quietPeriod. -/
theorem debounce_single_speaking_transition :
    runEvents "P2" [0, 200, 400] ⟨[("P2", noStyle)], []⟩ =
      some (⟨[("P2", noStyle)], [("P2", none)]⟩, [(0, true), (900, false)]) ∧
    (∀ (st : AudioState) (pk : ToxPk) (t d : Nat) (s : String),
      pendingDeadline st pk = some d →
      List.lookup pk st.peerLabels = some s →
      peerAudioPlaying pk t st =
        some ({ peerLabels := insertA st.peerLabels pk redStyle,
                peerAudioTimers := insertA st.peerAudioTimers pk (some (t + quietPeriod)) },
              false) ∧
      pendingDeadline
        { peerLabels := insertA st.peerLabels pk redStyle,
          peerAudioTimers := insertA st.peerAudioTimers pk (some (t + quietPeriod)) } pk =
        some (t + quietPeriod)) := by
  constructor
  · decide
  · intro st pk t d s hd hl
    have htimer := pendingDeadline_some_inv st pk d hd
    constructor
    · unfold peerAudioPlaying
      rw [hl, htimer]
    · unfold pendingDeadline
      rw [lookup_insertA]

/-- Claim C4 witness: a pending deadline of 500 is reset to 533 by an
event at t=33 without re-running the creation branch. -/
theorem debounce_single_speaking_transition_witness :
    peerAudioPlaying "P2" 33 ⟨[("P2", redStyle)], [("P2", some 500)]⟩ =
      some (⟨[("P2", redStyle)], [("P2", some 533)]⟩, false) ∧
    pendingDeadline ⟨[("P2", redStyle)], [("P2", some 533)]⟩ "P2" = some 533 := by
  have h := debounce_single_speaking_transition.2
    ⟨[("P2", redStyle)], [("P2", some 500)]⟩ "P2" 33 500 redStyle rfl rfl
  exact ⟨h.1, h.2⟩

/-- Claim C1 counterexample: the comparator of lines 265-268 compares the
lowercased rendered label texts, which are the edited (truncated) names
with their ", " separator, not the lowercased full names. For the roster
pk1 ↦ "Alice\nZ", pk2 ↦ "AliceB", the lowercased full names order
"alice\nz" before "aliceb", but the rendered texts "alice…, " and
"aliceb, " order the other way, so the output of reconcile violates the
claimed adjacent-pair ordering by full name: truncation does perturb the
ordering. -/
theorem reconcile_not_sorted_by_full_name :
    ¬ List.Chain'
        (fun a b : DisplayEntry => qstrLe (qtoLower a.fullName) (qtoLower b.fullName) = true)
        (reconcile [("pk1", "Alice\nZ"), ("pk2", "AliceB")] "selfpk" []) := by
  have hval :
      reconcile [("pk1", "Alice\nZ"), ("pk2", "AliceB")] "selfpk" [] =
        [mkEntry "selfpk" [] ("pk2", "AliceB"), mkEntry "selfpk" [] ("pk1", "Alice\nZ")] := by
    have h := mergeSort_pair labelLe (mkEntry "selfpk" [] ("pk1", "Alice\nZ"))
      (mkEntry "selfpk" [] ("pk2", "AliceB"))
    simp only [reconcile, List.map]
    rw [show ([("pk1", "Alice\nZ"), ("pk2", "AliceB")] : List (ToxPk × String)).isEmpty = false
      from rfl]
    simp only [Bool.false_eq_true, if_false]
    rw [h]
    rw [show labelLe (mkEntry "selfpk" [] ("pk1", "Alice\nZ"))
      (mkEntry "selfpk" [] ("pk2", "AliceB")) = false from by decide]
    simp
  rw [hval]
  intro hchain
  rw [List.chain'_cons] at hchain
  exact absurd hchain.1 (by decide)

/-- Claim C1 as amended: the output of reconcile is sorted ascending by
the lowercased rendered label text (the edited, possibly truncated name
with its ", " separator): every adjacent output pair a, b satisfies
lower(text(a)) ≤ lower(text(b)) in the QString order. -/
theorem reconcile_sorted_by_rendered_text (peers : List (ToxPk × String)) (selfPk : ToxPk)
    (bl : List String) :
    List.Chain' (fun a b : DisplayEntry => labelLe a b = true)
      (reconcile peers selfPk bl) := by
  unfold reconcile
  split
  · exact List.chain'_nil
  · exact (List.sorted_mergeSort labelLe_trans labelLe_total _).chain'

/-- Claim C7: reconcile produces exactly one display entry per roster
key — the output length equals the roster size and the output identities
are a permutation of the roster keys, so there are no stale and no
missing entries — and the empty roster yields the empty sequence. -/
theorem reconcile_one_entry_per_key (peers : List (ToxPk × String)) (selfPk : ToxPk)
    (bl : List String) :
    (reconcile peers selfPk bl).length = peers.length ∧
    ((reconcile peers selfPk bl).map DisplayEntry.pk).Perm (peers.map Prod.fst) ∧
    reconcile ([] : List (ToxPk × String)) selfPk bl = [] :=
  ⟨reconcile_length peers selfPk bl, reconcile_map_pk_perm peers selfPk bl, rfl⟩

/-- Claim C9: the name-list rebuild is a pure, deterministic function of
the roster, the local identity and the blacklist: lines 218-225 clear the
layout and peerLabels before rebuilding, so the result never depends on
the previous widget contents, two passes over unchanged inputs produce
identical output, and a second pass changes nothing. -/
theorem updateUserNames_deterministic_idempotent (peers : List (ToxPk × String))
    (selfPk : ToxPk) (bl : List String) (st1 st2 : NameListState) :
    updateUserNamesOp peers selfPk bl st1 = updateUserNamesOp peers selfPk bl st2 ∧
    updateUserNamesOp peers selfPk bl (updateUserNamesOp peers selfPk bl st1) =
      updateUserNamesOp peers selfPk bl st1 := by
  constructor <;> rfl

/-- Claim C10: the unguarded access to the last element of the sorted
label list (lines 270-274, stripping the trailing ", ") executes only
when the roster is non-empty, because the empty-roster early return of
lines 229-231 precedes it: a non-empty roster always yields a non-empty
sorted label list, and updateUserNames reaches the strip exactly in that
branch. -/
theorem last_label_access_guarded (peers : List (ToxPk × String)) (selfPk : ToxPk)
    (bl : List String) (h : peers ≠ []) :
    reconcile peers selfPk bl ≠ [] ∧
    updateUserNames peers selfPk bl = chopLastText (reconcile peers selfPk bl) := by
  have hne : peers.isEmpty = false := by
    cases peers with
    | nil => exact absurd rfl h
    | cons a t => rfl
  constructor
  · intro hcon
    have hlen := reconcile_length peers selfPk bl
    rw [hcon] at hlen
    exact h (List.eq_nil_of_length_eq_zero hlen.symm)
  · unfold updateUserNames
    rw [hne]
    simp

/-- Claim C10 witness: a one-peer roster. -/
theorem last_label_access_guarded_witness :
    reconcile [("P1", "Ann")] "selfpk" [] ≠ [] ∧
    updateUserNames [("P1", "Ann")] "selfpk" [] =
      chopLastText (reconcile [("P1", "Ann")] "selfpk" []) :=
  last_label_access_guarded [("P1", "Ann")] "selfpk" [] (by decide)
